import Mathlib

/-!
Shallow embedding of `src/bimap.py`: a bijective registry (`Bimap`) mapping
distinct immutable items to ordinals (naturals assigned in registration order).

The Python class keeps two `OrderedDict`s, `item2ord` and `ord2item`.  An
`OrderedDict` is modelled as the list of its key-value pairs in insertion
order; lookup returns the value of the first matching key (keys are unique in
every state the program constructs, so first-match lookup agrees with the
dict).  Python `None` — the reserved sentinel rejected by `register` — is
modelled by `Option α`: the argument `none` plays the role of `None`, and a
genuine item is `some x`.  A raised `ValueError` is modelled by an
`Except.error` result paired with the (unchanged) registry state, so that
state after an exception is explicit.
-/

set_option maxHeartbeats 1000000

/-- Lookup in an OrderedDict modelled as an insertion-ordered list of
key-value pairs: `d[k]` returning the value, or `None` (here `none`) on
`KeyError`, as the class's `try ... except KeyError` wrappers do. -/
def dictGet {κ ν : Type} [DecidableEq κ] (l : List (κ × ν)) (k : κ) : Option ν :=
  (l.find? (fun p => decide (p.1 = k))).map Prod.snd

/-- Lookup in the ordinal-to-item dict with a numeric probe.  Python compares
dict keys by value equality across numeric types, and the stored keys are the
naturals `0..size-1`, so a probe by an arbitrary rational (covering negative,
non-integral and out-of-range numeric arguments to `item()`) matches the key
`k` exactly when it equals `k` as a rational. -/
def dictGetQ {ν : Type} (l : List (Nat × ν)) (q : ℚ) : Option ν :=
  (l.find? (fun p => decide ((p.1 : ℚ) = q))).map Prod.snd

/-- The state of `Bimap.__init__`'s three attributes: `_classname`,
`item2ord` and `ord2item`. -/
structure Bimap (α : Type) where
  classname : String
  item2ord : List (α × Nat)
  ord2item : List (Nat × α)
deriving DecidableEq

/-- The state `Bimap()` constructs before registering any argument. -/
def Bimap.empty (α : Type) : Bimap α := ⟨"Bimap", [], []⟩

/-- Python `len(self)`, delegated to `len(self.item2ord)`. -/
def Bimap.size {α : Type} (b : Bimap α) : Nat := b.item2ord.length

/-- Python `__getitem__`: `self.item2ord[item]`, or `None` on `KeyError`. -/
def Bimap.getitem {α : Type} [DecidableEq α] (b : Bimap α) (x : α) : Option Nat :=
  dictGet b.item2ord x

/-- Python `ordinal`, a delegation to `__getitem__`. -/
def Bimap.ordinal {α : Type} [DecidableEq α] (b : Bimap α) (x : α) : Option Nat :=
  b.getitem x

/-- Python `register`.  `None` (modelled `none`) raises `ValueError` before
any mutation — the paired state is the receiver unchanged.  A present item is
returned with its existing ordinal and no mutation; an absent item receives
ordinal `len(self)` and is appended to both dicts. -/
def Bimap.register {α : Type} [DecidableEq α] (b : Bimap α) (it : Option α) :
    Except String Nat × Bimap α :=
  match it with
  | none => (Except.error (b.classname ++ " cannot register \"None\""), b)
  | some x =>
    match dictGet b.item2ord x with
    | some n => (Except.ok n, b)
    | none =>
      (Except.ok b.size,
       { b with item2ord := b.item2ord ++ [(x, b.size)],
                ord2item := b.ord2item ++ [(b.size, x)] })

/-- The state after `register(x)` on a genuine (non-`None`) item; such a call
never raises, so this is total. -/
def Bimap.registerD {α : Type} [DecidableEq α] (b : Bimap α) (x : α) : Bimap α :=
  (b.register (some x)).2

/-- Sequentially `register` each element of a list, as `__init__`'s loop does. -/
def Bimap.registerAll {α : Type} [DecidableEq α] (b : Bimap α) (xs : List α) : Bimap α :=
  xs.foldl (fun c x => c.registerD x) b

/-- Python `Bimap(*args)` on non-`None` arguments: start from the empty state
and `register` each argument in order. -/
def Bimap.init {α : Type} [DecidableEq α] (args : List α) : Bimap α :=
  (Bimap.empty α).registerAll args

/-- Python `item`: `self.ord2item[ordinal]`, or `None` on `KeyError`.  The
probe is a rational so that negative, non-integral and too-large numeric
arguments are all expressible. -/
def Bimap.item {α : Type} (b : Bimap α) (q : ℚ) : Option α :=
  dictGetQ b.ord2item q

/-- Python `nth`, a delegation to `item`. -/
def Bimap.nth {α : Type} (b : Bimap α) (q : ℚ) : Option α := b.item q

/-- Python `iter(self)` = `iter(self.item2ord)`: the registered items in
registration order (the keys of `item2ord`). -/
def Bimap.itemsList {α : Type} (b : Bimap α) : List α :=
  b.item2ord.map Prod.fst

/-- Python `enumerate(self.item2ord)`: the finite sequence of
`(counter, item)` pairs the built-in `enumerate` yields over the keys of
`item2ord`, counter first. -/
def Bimap.enumerate {α : Type} (b : Bimap α) : List (Nat × α) :=
  b.itemsList.enum

/-- Python `range()`: `set(self)`, the unordered set of registered items. -/
def Bimap.range {α : Type} [DecidableEq α] (b : Bimap α) : Finset α :=
  b.itemsList.toFinset

/-- Python `__eq__` between two Bimaps: `self.item2ord == other.item2ord`.
Equality of two `OrderedDict`s is order-sensitive, i.e. equality of their
pair sequences. -/
def Bimap.eq {α : Type} [DecidableEq α] (b c : Bimap α) : Bool :=
  decide (b.item2ord = c.item2ord)

/-- The constructor arguments `__repr__` prints: the items in registration
order.  For items whose literal representation is faithful — tuples,
booleans, byte strings, frozensets — `eval` parses each printed literal back
to the item itself, so the serialization layer is the identity on this list. -/
def Bimap.reprArgs {α : Type} (b : Bimap α) : List α := b.itemsList

/-- Evaluating the debug string: `eval(repr(b))` re-runs the constructor on
the printed items, i.e. `Bimap(*reprArgs b)`. -/
def Bimap.reconstruct {α : Type} [DecidableEq α] (b : Bimap α) : Bimap α :=
  Bimap.init b.reprArgs

/-- The registry state holding exactly the distinct items of `l`, in order:
`item2ord` maps the `k`-th item to `k` and `ord2item` maps `k` to the `k`-th
item.  Every reachable state has this shape. -/
def Bimap.fromItems {α : Type} (l : List α) : Bimap α :=
  ⟨"Bimap", l.enum.map (fun p => (p.2, p.1)), l.enum⟩

/-- Reachability invariant: the state is `fromItems l` for a duplicate-free
item list `l`.  It holds for every state built by the constructor and
`register`. -/
def Bimap.Inv {α : Type} (b : Bimap α) : Prop :=
  ∃ l : List α, l.Nodup ∧ b = Bimap.fromItems l

/-- Modelled from the spec (for stating C7): the sublist of first occurrences
of the distinct items of `args`, in the order of their first occurrence. -/
def specFirstOccurrences {α : Type} [DecidableEq α] (args : List α) : List α :=
  args.foldl (fun acc x => if x ∈ acc then acc else acc ++ [x]) []

/-- Lookup in the empty dict misses. -/
theorem dictGet_nil {κ ν : Type} [DecidableEq κ] (k : κ) :
    dictGet ([] : List (κ × ν)) k = none := rfl

/-- Unfolding one entry of a dict lookup. -/
theorem dictGet_cons {κ ν : Type} [DecidableEq κ] (p : κ × ν) (l : List (κ × ν)) (k : κ) :
    dictGet (p :: l) k = if p.1 = k then some p.2 else dictGet l k := by
  by_cases h : p.1 = k
  · rw [dictGet, List.find?_cons_of_pos _ (by simpa using h), if_pos h]
    rfl
  · rw [dictGet, List.find?_cons_of_neg _ (by simpa using h), if_neg h]
    rfl

/-- Lookup in an appended dict tries the left entries first. -/
theorem dictGet_append {κ ν : Type} [DecidableEq κ] (l₁ l₂ : List (κ × ν)) (k : κ) :
    dictGet (l₁ ++ l₂) k = ((dictGet l₁ k).orElse (fun _ => dictGet l₂ k)) := by
  induction l₁ with
  | nil => simp [dictGet]
  | cons p l ih =>
    rw [List.cons_append, dictGet_cons, dictGet_cons]
    by_cases h : p.1 = k
    · simp [h]
    · simp [h, ih]

/-- Unfolding one entry of a numeric-probe dict lookup. -/
theorem dictGetQ_cons {ν : Type} (p : Nat × ν) (l : List (Nat × ν)) (q : ℚ) :
    dictGetQ (p :: l) q = if ((p.1 : ℚ) = q) then some p.2 else dictGetQ l q := by
  by_cases h : ((p.1 : ℚ) = q)
  · rw [dictGetQ, List.find?_cons_of_pos _ (by simpa using h), if_pos h]
    rfl
  · rw [dictGetQ, List.find?_cons_of_neg _ (by simpa using h), if_neg h]
    rfl

/-- Probing the ordinal dict `l.enumFrom s` (keys `s, s+1, ...`) with the
rational image of the key `s + k` yields the `k`-th stored value. -/
theorem dictGetQ_enumFrom_nat {α : Type} (l : List α) :
    ∀ s k : Nat, dictGetQ (l.enumFrom s) (((s + k : Nat) : ℚ)) = l[k]? := by
  induction l with
  | nil => intro s k; simp [dictGetQ, List.enumFrom]
  | cons x xs ih =>
    intro s k
    cases k with
    | zero =>
      rw [List.enumFrom_cons, dictGetQ_cons, if_pos (by norm_num)]
      simp
    | succ k =>
      rw [List.enumFrom_cons, dictGetQ_cons, if_neg]
      · rw [show s + (k + 1) = (s + 1) + k by omega]
        rw [ih (s + 1) k]
        simp
      · rw [Nat.cast_inj]
        omega

/-- Probing the ordinal dict with a rational that is no key at all misses. -/
theorem dictGetQ_enumFrom_none {α : Type} (l : List α) :
    ∀ (s : Nat) (q : ℚ), (∀ k : Nat, k < l.length → (((s + k : Nat) : ℚ)) ≠ q) →
      dictGetQ (l.enumFrom s) q = none := by
  induction l with
  | nil => intro s q _; simp [dictGetQ, List.enumFrom]
  | cons x xs ih =>
    intro s q h
    rw [List.enumFrom_cons, dictGetQ_cons, if_neg]
    · refine ih (s + 1) q (fun k hk => ?_)
      rw [show (s + 1) + k = s + (k + 1) by omega]
      exact h (k + 1) (by simp only [List.length_cons]; omega)
    · have h0 := h 0 (by simp only [List.length_cons]; omega)
      simpa using h0

/-- An item absent from `l` is no key of the item-to-ordinal dict built from
`l.enumFrom s`. -/
theorem dictGet_swapEnum_of_not_mem {α : Type} [DecidableEq α] (l : List α) :
    ∀ (s : Nat) (x : α), x ∉ l →
      dictGet ((l.enumFrom s).map (fun p => (p.2, p.1))) x = none := by
  induction l with
  | nil => intro s x _; simp [dictGet, List.enumFrom]
  | cons y ys ih =>
    intro s x h
    have h' : ¬(x = y ∨ x ∈ ys) := by simpa [List.mem_cons] using h
    push_neg at h'
    rw [List.enumFrom_cons, List.map_cons, dictGet_cons, if_neg]
    · exact ih (s + 1) x (h').2
    · exact fun he => (h').1 he.symm

/-- An item present in `l` is found by the item-to-ordinal dict. -/
theorem dictGet_swapEnum_of_mem {α : Type} [DecidableEq α] (l : List α) :
    ∀ (s : Nat) (x : α), x ∈ l →
      ∃ m, dictGet ((l.enumFrom s).map (fun p => (p.2, p.1))) x = some m := by
  induction l with
  | nil => intro s x h; simp at h
  | cons y ys ih =>
    intro s x h
    rw [List.enumFrom_cons, List.map_cons, dictGet_cons]
    by_cases he : y = x
    · exact ⟨s, by rw [if_pos he]⟩
    · rw [if_neg he]
      rcases List.mem_cons.mp h with h1 | h2
      · exact absurd h1.symm he
      · exact ih (s + 1) x h2

/-- A successful item-to-ordinal lookup locates the item in `l`, at the
position the returned ordinal encodes. -/
theorem dictGet_swapEnum_some {α : Type} [DecidableEq α] (l : List α) :
    ∀ (s : Nat) (x : α) (m : Nat),
      dictGet ((l.enumFrom s).map (fun p => (p.2, p.1))) x = some m →
      ∃ k, m = s + k ∧ l[k]? = some x := by
  induction l with
  | nil => intro s x m h; simp [dictGet, List.enumFrom] at h
  | cons y ys ih =>
    intro s x m h
    rw [List.enumFrom_cons, List.map_cons, dictGet_cons] at h
    by_cases he : y = x
    · rw [if_pos he] at h
      simp only [Option.some.injEq] at h
      refine ⟨0, by omega, ?_⟩
      simp [he]
    · rw [if_neg he] at h
      obtain ⟨k, hk, hg⟩ := ih (s + 1) x m h
      exact ⟨k + 1, by omega, by simpa using hg⟩

/-- On a duplicate-free `l` the item stored at position `k` is looked up to
exactly the ordinal `s + k`. -/
theorem dictGet_swapEnum_nodup {α : Type} [DecidableEq α] (l : List α) :
    ∀ (s k : Nat) (x : α), l.Nodup → l[k]? = some x →
      dictGet ((l.enumFrom s).map (fun p => (p.2, p.1))) x = some (s + k) := by
  induction l with
  | nil => intro s k x _ h; simp at h
  | cons y ys ih =>
    intro s k x hnd h
    rw [List.enumFrom_cons, List.map_cons, dictGet_cons]
    cases k with
    | zero =>
      simp only [List.getElem?_cons_zero, Option.some.injEq] at h
      rw [if_pos h]
      simp
    | succ k =>
      have h' : ys[k]? = some x := by simpa using h
      have hx : x ∈ ys := List.getElem?_mem h'
      have hyx : ¬(y = x) := by
        intro he
        exact (List.nodup_cons.mp hnd).1 (he ▸ hx)
      rw [if_neg hyx]
      rw [show s + (k + 1) = (s + 1) + k by omega]
      exact ih (s + 1) k x (List.nodup_cons.mp hnd).2 h'

/-- The size of a `fromItems` state is the number of items. -/
theorem size_fromItems {α : Type} (l : List α) :
    (Bimap.fromItems l).size = l.length := by
  simp [Bimap.size, Bimap.fromItems]

/-- A successful `__getitem__` on a `fromItems` state reads off a position. -/
theorem getitem_fromItems_some {α : Type} [DecidableEq α] (l : List α) (x : α) (m : Nat)
    (h : (Bimap.fromItems l).getitem x = some m) : l[m]? = some x := by
  have h' : dictGet ((l.enumFrom 0).map (fun p => (p.2, p.1))) x = some m := by
    simpa [Bimap.getitem, Bimap.fromItems, List.enum] using h
  obtain ⟨k, hk, hg⟩ := dictGet_swapEnum_some l 0 x m h'
  rw [show m = k by omega]
  exact hg

/-- On a duplicate-free `fromItems` state, `__getitem__` of the item at
position `k` returns `k`. -/
theorem getitem_fromItems_of_getElem {α : Type} [DecidableEq α] (l : List α) (k : Nat) (x : α)
    (hnd : l.Nodup) (h : l[k]? = some x) :
    (Bimap.fromItems l).getitem x = some k := by
  have := dictGet_swapEnum_nodup l 0 k x hnd h
  simpa [Bimap.getitem, Bimap.fromItems, List.enum] using this

/-- On a `fromItems` state, `__getitem__` of an absent item returns `None`. -/
theorem getitem_fromItems_of_not_mem {α : Type} [DecidableEq α] (l : List α) (x : α)
    (h : x ∉ l) : (Bimap.fromItems l).getitem x = none := by
  have := dictGet_swapEnum_of_not_mem l 0 x h
  simpa [Bimap.getitem, Bimap.fromItems, List.enum] using this

/-- On a `fromItems` state, `__getitem__` of a present item succeeds. -/
theorem getitem_fromItems_of_mem {α : Type} [DecidableEq α] (l : List α) (x : α)
    (h : x ∈ l) : ∃ m, (Bimap.fromItems l).getitem x = some m := by
  obtain ⟨m, hm⟩ := dictGet_swapEnum_of_mem l 0 x h
  exact ⟨m, by simpa [Bimap.getitem, Bimap.fromItems, List.enum] using hm⟩

/-- On a `fromItems` state, `item` probed with the natural `k` reads
position `k`. -/
theorem item_fromItems_nat {α : Type} (l : List α) (k : Nat) :
    (Bimap.fromItems l).item ((k : Nat) : ℚ) = l[k]? := by
  have := dictGetQ_enumFrom_nat l 0 k
  simpa [Bimap.item, Bimap.fromItems, List.enum] using this

/-- On a `fromItems` state, `item` probed with a rational equal to no valid
ordinal returns `None`. -/
theorem item_fromItems_none {α : Type} (l : List α) (q : ℚ)
    (h : ∀ k : Nat, k < l.length → ((k : Nat) : ℚ) ≠ q) :
    (Bimap.fromItems l).item q = none := by
  have := dictGetQ_enumFrom_none l 0 q (fun k hk => by simpa using h k hk)
  simpa [Bimap.item, Bimap.fromItems, List.enum] using this

/-- The item sequence of a `fromItems` state is the item list itself. -/
theorem itemsList_fromItems {α : Type} (l : List α) :
    (Bimap.fromItems l).itemsList = l := by
  show (l.enum.map (fun p => (p.2, p.1))).map Prod.fst = l
  rw [List.map_map]
  have hf : (Prod.fst ∘ fun p : Nat × α => (p.2, p.1)) = Prod.snd := rfl
  rw [hf, List.enum_map_snd]

/-- Registering a present item is the pure lookup branch of `register`. -/
theorem register_of_getitem_some {α : Type} [DecidableEq α] (b : Bimap α) (x : α) (n : Nat)
    (h : b.getitem x = some n) : b.register (some x) = (Except.ok n, b) := by
  have h' : dictGet b.item2ord x = some n := h
  simp [Bimap.register, h']

/-- Registering an absent item appends `(item, size)` and `(size, item)`. -/
theorem register_of_getitem_none {α : Type} [DecidableEq α] (b : Bimap α) (x : α)
    (h : b.getitem x = none) :
    b.register (some x) =
      (Except.ok b.size,
       { b with item2ord := b.item2ord ++ [(x, b.size)],
                ord2item := b.ord2item ++ [(b.size, x)] }) := by
  have h' : dictGet b.item2ord x = none := h
  simp [Bimap.register, h']

/-- Registering a present item leaves the state unchanged. -/
theorem registerD_of_getitem_some {α : Type} [DecidableEq α] (b : Bimap α) (x : α) (n : Nat)
    (h : b.getitem x = some n) : b.registerD x = b := by
  rw [Bimap.registerD, register_of_getitem_some b x n h]

/-- The state after registering an absent item. -/
theorem registerD_of_getitem_none {α : Type} [DecidableEq α] (b : Bimap α) (x : α)
    (h : b.getitem x = none) :
    b.registerD x =
      { b with item2ord := b.item2ord ++ [(x, b.size)],
               ord2item := b.ord2item ++ [(b.size, x)] } := by
  rw [Bimap.registerD, register_of_getitem_none b x h]

/-- Registering an absent item makes it found at ordinal `size`. -/
theorem getitem_registerD_self_of_none {α : Type} [DecidableEq α] (b : Bimap α) (x : α)
    (h : b.getitem x = none) : (b.registerD x).getitem x = some b.size := by
  rw [registerD_of_getitem_none b x h]
  show dictGet (b.item2ord ++ [(x, b.size)]) x = some b.size
  rw [dictGet_append, show dictGet b.item2ord x = none from h]
  simp [dictGet_cons]

/-- An existing association survives any later `register`. -/
theorem getitem_registerD_of_some {α : Type} [DecidableEq α] (b : Bimap α) (x y : α) (n : Nat)
    (h : b.getitem x = some n) : (b.registerD y).getitem x = some n := by
  cases hy : b.getitem y with
  | some m => rw [registerD_of_getitem_some b y m hy]; exact h
  | none =>
    rw [registerD_of_getitem_none b y hy]
    show dictGet (b.item2ord ++ [(y, b.size)]) x = some n
    rw [dictGet_append, show dictGet b.item2ord x = some n from h]
    rfl

/-- An existing association survives any later sequence of `register` calls. -/
theorem getitem_registerAll_of_some {α : Type} [DecidableEq α] (xs : List α) :
    ∀ (b : Bimap α) (x : α) (n : Nat), b.getitem x = some n →
      (b.registerAll xs).getitem x = some n := by
  induction xs with
  | nil => intro b x n h; exact h
  | cons y ys ih =>
    intro b x n h
    show ((b.registerD y).registerAll ys).getitem x = some n
    exact ih _ x n (getitem_registerD_of_some b x y n h)

/-- Registering an item already in a `fromItems` state changes nothing. -/
theorem registerD_fromItems_of_mem {α : Type} [DecidableEq α] (l : List α) (x : α)
    (h : x ∈ l) : (Bimap.fromItems l).registerD x = Bimap.fromItems l := by
  obtain ⟨m, hm⟩ := getitem_fromItems_of_mem l x h
  exact registerD_of_getitem_some _ x m hm

/-- Registering a fresh item extends a `fromItems` state by that item. -/
theorem registerD_fromItems_of_not_mem {α : Type} [DecidableEq α] (l : List α) (x : α)
    (h : x ∉ l) :
    (Bimap.fromItems l).registerD x = Bimap.fromItems (l ++ [x]) := by
  rw [registerD_of_getitem_none _ x (getitem_fromItems_of_not_mem l x h)]
  rw [size_fromItems]
  show (⟨"Bimap", (l.enum.map (fun p => (p.2, p.1))) ++ [(x, l.length)],
        l.enum ++ [(l.length, x)]⟩ : Bimap α) = Bimap.fromItems (l ++ [x])
  rw [Bimap.fromItems, List.enum_append, List.enumFrom_singleton]
  simp

/-- Running `register` over a list on a `fromItems` state accumulates the
fresh items in first-occurrence order. -/
theorem registerAll_fromItems {α : Type} [DecidableEq α] (args : List α) :
    ∀ acc : List α,
      (Bimap.fromItems acc).registerAll args
        = Bimap.fromItems (args.foldl (fun a x => if x ∈ a then a else a ++ [x]) acc) := by
  induction args with
  | nil => intro acc; rfl
  | cons x xs ih =>
    intro acc
    show ((Bimap.fromItems acc).registerD x).registerAll xs = _
    rw [List.foldl_cons]
    by_cases h : x ∈ acc
    · rw [registerD_fromItems_of_mem acc x h, ih acc, if_pos h]
    · rw [registerD_fromItems_of_not_mem acc x h, ih (acc ++ [x]), if_neg h]

/-- The constructor on `args` builds the `fromItems` state of the first
occurrences of `args`. -/
theorem init_eq_fromItems {α : Type} [DecidableEq α] (args : List α) :
    Bimap.init args = Bimap.fromItems (specFirstOccurrences args) := by
  have h : (Bimap.empty α) = Bimap.fromItems [] := rfl
  rw [Bimap.init, h, registerAll_fromItems args []]
  rfl

/-- The first-occurrence fold keeps the accumulator duplicate-free. -/
theorem foldAcc_nodup {α : Type} [DecidableEq α] (args : List α) :
    ∀ acc : List α, acc.Nodup →
      (args.foldl (fun a x => if x ∈ a then a else a ++ [x]) acc).Nodup := by
  induction args with
  | nil => intro acc h; exact h
  | cons x xs ih =>
    intro acc h
    rw [List.foldl_cons]
    by_cases hx : x ∈ acc
    · rw [if_pos hx]; exact ih acc h
    · rw [if_neg hx]
      exact ih _ (by simp [List.nodup_append, h, hx])

/-- The first occurrences of any list form a duplicate-free list. -/
theorem specFirstOccurrences_nodup {α : Type} [DecidableEq α] (args : List α) :
    (specFirstOccurrences args).Nodup :=
  foldAcc_nodup args [] List.nodup_nil

/-- Every state the constructor builds satisfies the reachability invariant. -/
theorem Inv_init {α : Type} [DecidableEq α] (args : List α) : (Bimap.init args).Inv :=
  ⟨specFirstOccurrences args, specFirstOccurrences_nodup args, init_eq_fromItems args⟩

/-- Everything fed to the first-occurrence fold ends up in its result. -/
theorem mem_foldAcc {α : Type} [DecidableEq α] (args : List α) :
    ∀ (acc : List α) (x : α), (x ∈ acc ∨ x ∈ args) →
      x ∈ args.foldl (fun a y => if y ∈ a then a else a ++ [y]) acc := by
  induction args with
  | nil =>
    intro acc x h
    rcases h with h | h
    · exact h
    · simp at h
  | cons y ys ih =>
    intro acc x h
    rw [List.foldl_cons]
    apply ih
    rcases h with h | h
    · left
      by_cases hy : y ∈ acc
      · rw [if_pos hy]; exact h
      · rw [if_neg hy]; exact List.mem_append_left _ h
    · rcases List.mem_cons.mp h with h1 | h2
      · left
        subst h1
        by_cases hy : x ∈ acc
        · rw [if_pos hy]; exact hy
        · rw [if_neg hy]; exact List.mem_append_right _ (by simp)
      · right; exact h2

/-- Every argument occurs among the first occurrences. -/
theorem mem_specFirstOccurrences {α : Type} [DecidableEq α] (args : List α) (x : α)
    (h : x ∈ args) : x ∈ specFirstOccurrences args :=
  mem_foldAcc args [] x (Or.inr h)

/-- On arguments disjoint from the accumulator and duplicate-free, the
first-occurrence fold appends them unchanged. -/
theorem foldAcc_of_disjoint {α : Type} [DecidableEq α] (args : List α) :
    ∀ acc : List α, (∀ x ∈ args, x ∉ acc) → args.Nodup →
      args.foldl (fun a y => if y ∈ a then a else a ++ [y]) acc = acc ++ args := by
  induction args with
  | nil => intro acc _ _; simp
  | cons y ys ih =>
    intro acc hdisj hnd
    rw [List.foldl_cons, if_neg (hdisj y (List.mem_cons_self y ys))]
    rw [ih (acc ++ [y]) ?_ (List.nodup_cons.mp hnd).2]
    · simp
    · intro x hx hmem
      rcases List.mem_append.mp hmem with h1 | h2
      · exact hdisj x (List.mem_cons_of_mem _ hx) h1
      · have hxy : x = y := by simpa using h2
        exact (List.nodup_cons.mp hnd).1 (hxy ▸ hx)

/-- On a duplicate-free list the first occurrences are the list itself. -/
theorem specFirstOccurrences_of_nodup {α : Type} [DecidableEq α] (l : List α)
    (h : l.Nodup) : specFirstOccurrences l = l := by
  have := foldAcc_of_disjoint l [] (fun x _ hx => by simp at hx) h
  simpa [specFirstOccurrences] using this

/-- Membership in the item-to-ordinal dict of a `fromItems` state is exactly
positional membership in the item list. -/
theorem mem_item2ord_fromItems {α : Type} (l : List α) (x : α) (i : Nat) :
    (x, i) ∈ (Bimap.fromItems l).item2ord ↔ l[i]? = some x := by
  show (x, i) ∈ l.enum.map (fun p => (p.2, p.1)) ↔ l[i]? = some x
  rw [List.mem_map]
  constructor
  · rintro ⟨⟨j, y⟩, hp, he⟩
    simp only [Prod.mk.injEq] at he
    obtain ⟨h1, h2⟩ := he
    subst h1
    subst h2
    exact List.mem_enum_iff_getElem?.mp hp
  · intro h
    exact ⟨(i, x), List.mem_enum_iff_getElem?.mpr h, rfl⟩

/-- Two `fromItems` states with the same set of item-ordinal pairs carry the
same item list: the ordinal components pin each item to its position. -/
theorem fromItems_inj_of_pairs {α : Type} (l₁ l₂ : List α)
    (h : ∀ p : α × Nat,
      p ∈ (Bimap.fromItems l₁).item2ord ↔ p ∈ (Bimap.fromItems l₂).item2ord) :
    l₁ = l₂ := by
  apply List.ext_getElem?
  intro n
  cases h₁ : l₁[n]? with
  | some x =>
    have hm := (h (x, n)).mp ((mem_item2ord_fromItems l₁ x n).mpr h₁)
    exact ((mem_item2ord_fromItems l₂ x n).mp hm).symm
  | none =>
    cases h₂ : l₂[n]? with
    | some y =>
      have hm := (h (y, n)).mpr ((mem_item2ord_fromItems l₂ y n).mpr h₂)
      have hx := (mem_item2ord_fromItems l₁ y n).mp hm
      rw [h₁] at hx
      cases hx
    | none => rfl

/-- C1: for every registry state and item `x`, `register(x)` returns the
ordinal already associated with `x` and leaves the registry unchanged when
`x` is present; otherwise it returns the current size as the new ordinal,
inserts `x` into both internal dicts, and the size grows by exactly one;
repeating the call then returns the same ordinal with no further change. -/
theorem claim_C1 {α : Type} [DecidableEq α] (b : Bimap α) (x : α) :
    (∀ n : Nat, b.getitem x = some n → b.register (some x) = (Except.ok n, b)) ∧
    (b.getitem x = none →
      b.register (some x) = (Except.ok b.size, b.registerD x) ∧
      (b.registerD x).getitem x = some b.size ∧
      (b.registerD x).size = b.size + 1 ∧
      (x, b.size) ∈ (b.registerD x).item2ord ∧
      (b.size, x) ∈ (b.registerD x).ord2item ∧
      (b.registerD x).register (some x) = (Except.ok b.size, b.registerD x)) := by
  constructor
  · intro n h
    exact register_of_getitem_some b x n h
  · intro h
    have hD := registerD_of_getitem_none b x h
    have hget := getitem_registerD_self_of_none b x h
    refine ⟨?_, hget, ?_, ?_, ?_, ?_⟩
    · rw [register_of_getitem_none b x h, hD]
    · rw [hD]
      simp [Bimap.size]
    · rw [hD]
      simp
    · rw [hD]
      simp
    · exact register_of_getitem_some _ x b.size hget

/-- C1 witness: the theorem applied to the registry `Bimap(10, 11)`, once at
the present item `10` and once at the absent item `12`. -/
theorem claim_C1_witness :
    ((Bimap.init [10, 11] : Bimap Nat).register (some 10)
        = (Except.ok 0, Bimap.init [10, 11])) ∧
    ((Bimap.init [10, 11] : Bimap Nat).register (some 12)
        = (Except.ok (Bimap.init [10, 11] : Bimap Nat).size,
           (Bimap.init [10, 11] : Bimap Nat).registerD 12) ∧
      ((Bimap.init [10, 11] : Bimap Nat).registerD 12).getitem 12
        = some (Bimap.init [10, 11] : Bimap Nat).size ∧
      ((Bimap.init [10, 11] : Bimap Nat).registerD 12).size
        = (Bimap.init [10, 11] : Bimap Nat).size + 1 ∧
      (12, (Bimap.init [10, 11] : Bimap Nat).size)
        ∈ ((Bimap.init [10, 11] : Bimap Nat).registerD 12).item2ord ∧
      ((Bimap.init [10, 11] : Bimap Nat).size, 12)
        ∈ ((Bimap.init [10, 11] : Bimap Nat).registerD 12).ord2item ∧
      ((Bimap.init [10, 11] : Bimap Nat).registerD 12).register (some 12)
        = (Except.ok (Bimap.init [10, 11] : Bimap Nat).size,
           (Bimap.init [10, 11] : Bimap Nat).registerD 12)) :=
  ⟨(claim_C1 (Bimap.init [10, 11]) 10).1 0 (by decide),
   (claim_C1 (Bimap.init [10, 11]) 12).2 (by decide)⟩

/-- C3: registering the `None` sentinel fails with the `ValueError` carrying
the class name, before any mutation — the paired registry state is the
receiver itself, unchanged; and an error result arises exactly for the
`None` argument, so this is the only failure mode of `register` (all other
operations of the embedding are total functions). -/
theorem claim_C3 {α : Type} [DecidableEq α] (b : Bimap α) :
    b.register none
      = (Except.error (b.classname ++ " cannot register \"None\""), b) ∧
    (∀ it : Option α, (∃ e, (b.register it).1 = Except.error e) ↔ it = none) := by
  refine ⟨rfl, ?_⟩
  intro it
  constructor
  · rintro ⟨e, he⟩
    cases it with
    | none => rfl
    | some x =>
      cases hx : b.getitem x with
      | some n =>
        rw [register_of_getitem_some b x n hx] at he
        cases he
      | none =>
        rw [register_of_getitem_none b x hx] at he
        cases he
  · rintro rfl
    exact ⟨_, rfl⟩

/-- C3 witness: the theorem applied to the registry `Bimap(0)`. -/
theorem claim_C3_witness :
    (Bimap.init [0] : Bimap Nat).register none
      = (Except.error ((Bimap.init [0] : Bimap Nat).classname
          ++ " cannot register \"None\""), Bimap.init [0]) :=
  (claim_C3 (Bimap.init [0])).1

/-- C10: only the `None` sentinel is rejected; every genuine item — in
particular falsy ones such as `False`, `0`, the empty string and empty
composite values — is registered successfully and afterwards found by
`__getitem__` at its ordinal, not reported as missing. -/
theorem claim_C10 :
    (∀ (α : Type) [DecidableEq α] (b : Bimap α) (x : α),
        ∃ n : Nat, b.register (some x) = (Except.ok n, b.registerD x) ∧
          (b.registerD x).getitem x = some n) ∧
    ((Bimap.empty Bool).registerD false).getitem false = some 0 ∧
    ((Bimap.empty Nat).registerD 0).getitem 0 = some 0 ∧
    ((Bimap.empty String).registerD "").getitem "" = some 0 ∧
    ((Bimap.empty (List Nat)).registerD []).getitem [] = some 0 := by
  refine ⟨?_, rfl, rfl, rfl, rfl⟩
  intro α inst b x
  cases h : b.getitem x with
  | some n =>
    refine ⟨n, ?_, ?_⟩
    · rw [register_of_getitem_some b x n h, registerD_of_getitem_some b x n h]
    · rw [registerD_of_getitem_some b x n h]
      exact h
  | none =>
    refine ⟨b.size, ?_, getitem_registerD_self_of_none b x h⟩
    rw [register_of_getitem_none b x h, registerD_of_getitem_none b x h]

/-- C2: in every reachable registry state the two directions are mutually
inverse: `item(ordinal(x)) == x` for every registered item `x`, and
`ordinal(item(k)) == k` for every ordinal `k < size` — a bijection between
the registered items and the interval `[0, size)`. -/
theorem claim_C2 {α : Type} [DecidableEq α] (b : Bimap α) (hb : b.Inv) :
    (∀ (x : α) (n : Nat), b.ordinal x = some n → b.item ((n : Nat) : ℚ) = some x) ∧
    (∀ k : Nat, k < b.size →
      ∃ x : α, b.item ((k : Nat) : ℚ) = some x ∧ b.ordinal x = some k) := by
  obtain ⟨l, hnd, rfl⟩ := hb
  constructor
  · intro x n h
    rw [item_fromItems_nat]
    exact getitem_fromItems_some l x n h
  · intro k hk
    rw [size_fromItems] at hk
    obtain ⟨x, hx⟩ : ∃ x, l[k]? = some x := by
      rw [List.getElem?_eq_getElem hk]
      exact ⟨_, rfl⟩
    exact ⟨x, by rw [item_fromItems_nat]; exact hx,
           getitem_fromItems_of_getElem l k x hnd hx⟩

/-- C2 witness: the theorem applied to the registry `Bimap(7, 8)` at the
registered item `8`, whose ordinal is `1`. -/
theorem claim_C2_witness :
    (Bimap.init [7, 8] : Bimap Nat).item ((1 : Nat) : ℚ) = some 8 :=
  (claim_C2 (Bimap.init [7, 8]) (Inv_init [7, 8])).1 8 1 (by decide)

/-- C4: if `A` is registered (at ordinal `nA`) and `B` is not, then after
registering `B` and any further sequence of registrations, `A` still has
ordinal `nA`, `B` has the strictly larger ordinal `size` (registration order
determines strict ordinal order), and existing ordinals never change. -/
theorem claim_C4 {α : Type} [DecidableEq α] (b : Bimap α) (hb : b.Inv)
    (A B : α) (nA : Nat) (hA : b.ordinal A = some nA) (hB : b.ordinal B = none)
    (xs : List α) :
    ((b.registerD B).registerAll xs).ordinal A = some nA ∧
    ((b.registerD B).registerAll xs).ordinal B = some b.size ∧
    nA < b.size := by
  have hAsize : nA < b.size := by
    obtain ⟨l, hnd, rfl⟩ := hb
    have hg := getitem_fromItems_some l A nA hA
    rw [size_fromItems]
    by_contra hcon
    push_neg at hcon
    rw [List.getElem?_eq_none hcon] at hg
    cases hg
  have hA1 : (b.registerD B).getitem A = some nA := getitem_registerD_of_some b A B nA hA
  have hB1 : (b.registerD B).getitem B = some b.size := getitem_registerD_self_of_none b B hB
  exact ⟨getitem_registerAll_of_some xs _ A nA hA1,
         getitem_registerAll_of_some xs _ B b.size hB1,
         hAsize⟩

/-- C4 witness: starting from `Bimap(3)`, register the fresh item `4` and
then also `9`; the ordinal of `3` stays `0`, the ordinal of `4` is the old
size `1`, and `0 < 1`. -/
theorem claim_C4_witness :
    (((Bimap.init [3] : Bimap Nat).registerD 4).registerAll [9]).ordinal 3 = some 0 ∧
    (((Bimap.init [3] : Bimap Nat).registerD 4).registerAll [9]).ordinal 4
      = some (Bimap.init [3] : Bimap Nat).size ∧
    0 < (Bimap.init [3] : Bimap Nat).size :=
  claim_C4 (Bimap.init [3]) (Inv_init [3]) 3 4 0 (by decide) (by decide) [9]

/-- C5: in every reachable state, `item(n)` (and its alias `nth`) is a pure
total lookup: it returns `None` exactly when the numeric argument is
negative, non-integral, or at least `size`, and otherwise returns the item
registered at that ordinal. -/
theorem claim_C5 {α : Type} [DecidableEq α] (b : Bimap α) (hb : b.Inv) (q : ℚ) :
    b.nth q = b.item q ∧
    (b.item q = none ↔
      (q < 0 ∨ (¬∃ z : ℤ, (z : ℚ) = q) ∨ (b.size : ℚ) ≤ q)) ∧
    (∀ n : Nat, q = ((n : Nat) : ℚ) → n < b.size → b.item q = b.itemsList[n]?) := by
  obtain ⟨l, hnd, rfl⟩ := hb
  refine ⟨rfl, ?_, ?_⟩
  · rw [size_fromItems]
    constructor
    · intro hnone
      by_contra hcon
      push_neg at hcon
      obtain ⟨hq0, ⟨z, hz⟩, hlt⟩ := hcon
      have hz0 : 0 ≤ z := by
        have : (0 : ℚ) ≤ (z : ℚ) := by rw [hz]; exact hq0
        exact_mod_cast this
      have hnq : ((z.toNat : Nat) : ℚ) = q := by
        have h1 : ((z.toNat : Nat) : ℚ) = ((z.toNat : ℤ) : ℚ) := by norm_cast
        rw [← hz, h1, Int.toNat_of_nonneg hz0]
      have hnlt : z.toNat < l.length := by
        have : ((z.toNat : Nat) : ℚ) < (l.length : ℚ) := by rw [hnq]; exact hlt
        exact_mod_cast this
      rw [← hnq, item_fromItems_nat, List.getElem?_eq_getElem hnlt] at hnone
      cases hnone
    · intro h
      apply item_fromItems_none
      intro k hk he
      rcases h with h | h | h
      · rw [← he] at h
        exact absurd h (not_lt.mpr (by positivity))
      · exact h ⟨(k : ℤ), by exact_mod_cast he⟩
      · rw [← he] at h
        have : l.length ≤ k := by exact_mod_cast h
        omega
  · intro n hq hn
    rw [hq, item_fromItems_nat, itemsList_fromItems]

/-- C5 witness: the theorem applied to `Bimap(5, 6)` at the negative probe
`-1`, which is looked up to `None`. -/
theorem claim_C5_witness :
    (Bimap.init [5, 6] : Bimap Nat).item (-1 : ℚ) = none :=
  ((claim_C5 (Bimap.init [5, 6]) (Inv_init [5, 6]) (-1)).2.1).mpr
    (Or.inl (by norm_num))

/-- C6: for reachable registries, `__eq__` holds exactly when the
item-to-ordinal mappings agree as sets of pairs; and concretely, registries
built from `[0, 1]` and `[1, 0]` are unequal although their item sets
(`range()`) coincide. -/
theorem claim_C6 :
    (∀ (α : Type) [DecidableEq α] (b₁ b₂ : Bimap α), b₁.Inv → b₂.Inv →
        (Bimap.eq b₁ b₂ = true ↔
          ∀ p : α × Nat, p ∈ b₁.item2ord ↔ p ∈ b₂.item2ord)) ∧
    (Bimap.eq (Bimap.init [0, 1] : Bimap Nat) (Bimap.init [1, 0]) = false ∧
      (Bimap.init [0, 1] : Bimap Nat).range = (Bimap.init [1, 0]).range) := by
  constructor
  · intro α _ b₁ b₂ h₁ h₂
    obtain ⟨l₁, hnd₁, rfl⟩ := h₁
    obtain ⟨l₂, hnd₂, rfl⟩ := h₂
    constructor
    · intro he p
      have h12 : (Bimap.fromItems l₁).item2ord = (Bimap.fromItems l₂).item2ord :=
        of_decide_eq_true he
      rw [h12]
    · intro hp
      have h12 : l₁ = l₂ := fromItems_inj_of_pairs l₁ l₂ hp
      subst h12
      simp [Bimap.eq]
  · exact ⟨by decide, by decide⟩

/-- C6 witness: the equivalence applied to the registry `Bimap(0)` compared
with itself. -/
theorem claim_C6_witness :
    Bimap.eq (Bimap.init [0] : Bimap Nat) (Bimap.init [0]) = true :=
  (claim_C6.1 Nat (Bimap.init [0]) (Bimap.init [0])
    (Inv_init [0]) (Inv_init [0])).mpr (fun _ => Iff.rfl)

/-- C7: constructing from an argument list equals (in the registry's own
equality) registering each argument in order from the empty registry; the
result is the `fromItems` state of the first occurrences, every argument is
registered, and the `k`-th distinct first occurrence carries ordinal `k` —
so duplicates resolve to the ordinal of their first occurrence. -/
theorem claim_C7 {α : Type} [DecidableEq α] (args : List α) :
    Bimap.eq (Bimap.init args) ((Bimap.empty α).registerAll args) = true ∧
    Bimap.init args = Bimap.fromItems (specFirstOccurrences args) ∧
    (∀ x : α, x ∈ args → x ∈ specFirstOccurrences args) ∧
    (∀ (k : Nat) (x : α), (specFirstOccurrences args)[k]? = some x →
      (Bimap.init args).getitem x = some k) := by
  refine ⟨by simp [Bimap.eq, Bimap.init], init_eq_fromItems args,
          fun x hx => mem_specFirstOccurrences args x hx, ?_⟩
  intro k x h
  rw [init_eq_fromItems args]
  exact getitem_fromItems_of_getElem _ k x (specFirstOccurrences_nodup args) h

/-- C7 witness: the theorem applied to the argument list `[4, 4, 5]`, whose
first occurrences are `[4, 5]`; the second distinct item `5` gets ordinal
`1`. -/
theorem claim_C7_witness :
    (Bimap.init [4, 4, 5] : Bimap Nat).getitem 5 = some 1 :=
  (claim_C7 [4, 4, 5]).2.2.2 1 5 (by decide)

/-- C8: with the serialization layer modelled as the identity on the item
list printed by `__repr__` (the claim's hypothesis that items have faithful
literal representations), re-running the constructor on the debug string's
items yields a registry equal to the original. -/
theorem claim_C8 {α : Type} [DecidableEq α] (b : Bimap α) (hb : b.Inv) :
    Bimap.eq b b.reconstruct = true := by
  obtain ⟨l, hnd, rfl⟩ := hb
  show Bimap.eq (Bimap.fromItems l) (Bimap.init (Bimap.fromItems l).itemsList) = true
  rw [itemsList_fromItems, init_eq_fromItems, specFirstOccurrences_of_nodup l hnd]
  simp [Bimap.eq]

/-- C8 witness: the theorem applied to the registry `Bimap(2, 3)`. -/
theorem claim_C8_witness :
    Bimap.eq (Bimap.init [2, 3] : Bimap Nat) (Bimap.init [2, 3]).reconstruct = true :=
  claim_C8 (Bimap.init [2, 3]) (Inv_init [2, 3])

/-- C9 counterexample: the pair iteration of the registry `Bimap(5)` yields
`[(0, 5)]` — the ordinal is the first component — and not `[(5, 0)]`, which
the claimed `(Item, Ordinal)` component order would require. -/
theorem claim_C9_counterexample :
    (Bimap.init [5] : Bimap Nat).enumerate = [(0, 5)] ∧
    (Bimap.init [5] : Bimap Nat).enumerate ≠ [(5, 0)] := by
  constructor
  · decide
  · decide

/-- C9 (amended): `enumerate` produces the finite sequence of
`(Ordinal, Item)` pairs — ordinal first, item second — in registration
order, pairing each item with its own ordinal; the ordinal components are
exactly `0, 1, ..., size-1` in increasing order, and the item component of
the `k`-th produced pair is `item_at(k)`. -/
theorem claim_C9 {α : Type} [DecidableEq α] (b : Bimap α) (hb : b.Inv) :
    b.enumerate.map Prod.fst = List.range b.size ∧
    (∀ k : Nat, k < b.size →
      ∃ x : α, b.enumerate[k]? = some (k, x) ∧ b.item ((k : Nat) : ℚ) = some x) := by
  obtain ⟨l, hnd, rfl⟩ := hb
  constructor
  · show (Bimap.fromItems l).itemsList.enum.map Prod.fst = _
    rw [itemsList_fromItems, size_fromItems]
    exact List.enum_map_fst l
  · intro k hk
    rw [size_fromItems] at hk
    obtain ⟨x, hx⟩ : ∃ x, l[k]? = some x := by
      rw [List.getElem?_eq_getElem hk]
      exact ⟨_, rfl⟩
    refine ⟨x, ?_, ?_⟩
    · show (Bimap.fromItems l).itemsList.enum[k]? = some (k, x)
      rw [itemsList_fromItems, List.getElem?_enum, hx]
      rfl
    · rw [item_fromItems_nat]
      exact hx

/-- C9 witness: the amended theorem applied to the registry `Bimap(5, 6)`:
the ordinal components of its pair iteration are `[0, 1]`. -/
theorem claim_C9_witness :
    (Bimap.init [5, 6] : Bimap Nat).enumerate.map Prod.fst
      = List.range (Bimap.init [5, 6] : Bimap Nat).size :=
  (claim_C9 (Bimap.init [5, 6]) (Inv_init [5, 6])).1
